import Mathlib

/-!
# Verification of the `ray-tracing-in-one-weekend` renderer core

A shallow embedding, in Lean 4, of the parts of the Rust path tracer that the
frozen claims C1-C10 are about, together with theorems settling each claim.

Modelling conventions:

* Finite `f64` scene data (coordinates, radii, ranges, colors) is modelled by
  exact rationals `ℚ`.  The claims under verification are about control flow,
  range acceptance, permutation structure and the handling of the IEEE special
  values produced by division, none of which depend on rounding.
* Where the Rust code deliberately relies on IEEE special values
  (`AABB::hit`'s slab division, the accumulator's `0.0 / 0.0`), computations
  are carried out in `F64`, an explicit model of the `f64` value domain with
  `+inf`, `-inf` and `NaN`, with division, `min`, `max` and the comparison
  operators following IEEE / Rust `f64` semantics.  A single unsigned zero is
  used: the embedded scenes contain no negative zeros, and the slab test
  sorts the two plane parameters with `min`/`max`, which makes the sign of an
  infinite quotient produced by a signed zero irrelevant to the result.
* `f64::sqrt` and the transcendental sphere UV map (`acos`/`atan2`) are kept
  abstract as an `Oracles` record threaded through `Sphere::hit`; theorems
  about sphere intersection are universally quantified over the oracles and
  therefore hold for the concrete `f64` functions.
* Rust panics (failed `assert!`, out-of-bounds indexing, `unwrap` of `None`)
  are modelled by an outer `Option` layer: `none` is a panic, `some x` is a
  normal return of `x`.
* `&mut Material` handles are irrelevant to every claim; materials are
  modelled as opaque identifiers (`ℕ`).
* The `RectPrism` composite (a memoized box of six rectangles) is outside the
  embedded fragment: no claim mentions it, and none of the claims' scenes
  contain one.
-/

/-- IEEE-754 double value domain: a finite rational, `+∞`, `-∞`, or `NaN`.
Finite values are exact rationals (see the module conventions). -/
inductive F64 : Type where
  | fin (q : ℚ)
  | pinf
  | ninf
  | nan
deriving DecidableEq

namespace F64

/-- IEEE division of finite doubles, total: `x / 0` is `±∞` for `x ≠ 0`
(single unsigned zero, see the module conventions) and `0 / 0` is `NaN`. -/
def fdiv (x y : ℚ) : F64 :=
  if y = 0 then
    if x = 0 then F64.nan
    else if 0 < x then F64.pinf
    else F64.ninf
  else F64.fin (x / y)

/-- Rust `f64::min`: if one argument is NaN the other argument is returned. -/
def fmin : F64 → F64 → F64
  | nan, b => b
  | a, nan => a
  | ninf, _ => ninf
  | _, ninf => ninf
  | pinf, b => b
  | a, pinf => a
  | fin a, fin b => fin (min a b)

/-- Rust `f64::max`: if one argument is NaN the other argument is returned. -/
def fmax : F64 → F64 → F64
  | nan, b => b
  | a, nan => a
  | pinf, _ => pinf
  | _, pinf => pinf
  | ninf, b => b
  | a, ninf => a
  | fin a, fin b => fin (max a b)

/-- IEEE `<` on doubles: every comparison with NaN is false. -/
def flt : F64 → F64 → Bool
  | nan, _ => false
  | _, nan => false
  | ninf, ninf => false
  | ninf, _ => true
  | _, ninf => false
  | pinf, _ => false
  | fin _, pinf => true
  | fin a, fin b => decide (a < b)

/-- IEEE `≤` on doubles: every comparison with NaN is false. -/
def fle : F64 → F64 → Bool
  | nan, _ => false
  | _, nan => false
  | ninf, _ => true
  | _, ninf => false
  | _, pinf => true
  | pinf, _ => false
  | fin a, fin b => decide (a ≤ b)

end F64

/-- 3D Euclidean vector (`geometry3d::Vec3`), components modelled by `ℚ`. -/
structure Vec3 : Type where
  x : ℚ
  y : ℚ
  z : ℚ
deriving DecidableEq

/-- 3D Cartesian point (`geometry3d::Point3`), components modelled by `ℚ`. -/
structure Point3 : Type where
  x : ℚ
  y : ℚ
  z : ℚ
deriving DecidableEq

namespace Vec3

/-- Component access by axis index, mirroring `NTuple`'s `Index`. -/
def get (v : Vec3) : Fin 3 → ℚ
  | ⟨0, _⟩ => v.x
  | ⟨1, _⟩ => v.y
  | ⟨2, _⟩ => v.z

/-- `Vec3::dot`: componentwise product reduced by addition. -/
def dot (v w : Vec3) : ℚ := v.x * w.x + v.y * w.y + v.z * w.z

/-- `Neg` for `Vec3`. -/
def neg (v : Vec3) : Vec3 := ⟨-v.x, -v.y, -v.z⟩

/-- `Div<f64>` for `Vec3`: scale by the reciprocal of the divisor. -/
def sdiv (v : Vec3) (s : ℚ) : Vec3 := ⟨v.x / s, v.y / s, v.z / s⟩

/-- The vector with value `q` on axis `i` and `0.0` elsewhere
(`outward_normal[axis] = ...` on a zero-initialised array). -/
def unitAxis : Fin 3 → ℚ → Vec3
  | ⟨0, _⟩, q => ⟨q, 0, 0⟩
  | ⟨1, _⟩, q => ⟨0, q, 0⟩
  | ⟨2, _⟩, q => ⟨0, 0, q⟩

end Vec3

namespace Point3

/-- Component access by axis index. -/
def get (p : Point3) : Fin 3 → ℚ
  | ⟨0, _⟩ => p.x
  | ⟨1, _⟩ => p.y
  | ⟨2, _⟩ => p.z

/-- `Point3 - Point3 → Vec3`. -/
def sub (a b : Point3) : Vec3 := ⟨a.x - b.x, a.y - b.y, a.z - b.z⟩

/-- `Point3 + Vec3 → Point3`. -/
def addVec (p : Point3) (v : Vec3) : Point3 := ⟨p.x + v.x, p.y + v.y, p.z + v.z⟩

/-- `Point3 - Vec3 → Point3`. -/
def subVec (p : Point3) (v : Vec3) : Point3 := ⟨p.x - v.x, p.y - v.y, p.z - v.z⟩

end Point3

/-- `geometry3d::Ray3`: origin, direction and time. -/
structure Ray3 : Type where
  origin : Point3
  direction : Vec3
  time : ℚ
deriving DecidableEq

/-- `Ray3::at`: `origin + t * direction`. -/
def Ray3.at (r : Ray3) (t : ℚ) : Point3 :=
  ⟨r.origin.x + t * r.direction.x, r.origin.y + t * r.direction.y,
    r.origin.z + t * r.direction.z⟩

/-- `geometry3d::TRange<f64>` with finite endpoints.  The Rust field `end` is
a reserved word in Lean and is called `stop` here. -/
structure TRange : Type where
  start : ℚ
  stop : ℚ
deriving DecidableEq

/-- `TRange::contains`: `self.start.le(i) && self.end.ge(i)` — both endpoints
are INCLUSIVE in the source. -/
def TRange.contains (r : TRange) (i : ℚ) : Bool :=
  decide (r.start ≤ i) && decide (r.stop ≥ i)

/-- `geometry3d::AABB`: axis-aligned bounding box given by two corner points. -/
structure AABB : Type where
  lo : Point3
  hi : Point3
deriving DecidableEq

namespace AABB

/-- Componentwise minimum of two points (`AABB::pmin`). -/
def pmin (a b : Point3) : Point3 := ⟨min a.x b.x, min a.y b.y, min a.z b.z⟩

/-- Componentwise maximum of two points (`AABB::pmax`). -/
def pmax (a b : Point3) : Point3 := ⟨max a.x b.x, max a.y b.y, max a.z b.z⟩

/-- `AABB::new`: asserts that the two corners differ on every axis (panic —
modelled by `none` — otherwise), then sorts the coordinates per axis. -/
def new (a b : Point3) : Option AABB :=
  if a.x ≠ b.x ∧ a.y ≠ b.y ∧ a.z ≠ b.z then some ⟨pmin a b, pmax a b⟩ else none

/-- `AABB::t`: per-axis plane-intersection parameters `(extent - origin) / direction`,
carried out in the IEEE domain (zero direction components give `±∞`/`NaN`). -/
def t (extent : Point3) (ray : Ray3) : Fin 3 → F64 := fun i =>
  F64.fdiv (extent.get i - ray.origin.get i) (ray.direction.get i)

/-- Body of `AABB::hit` (after its assertion): the slab test.  Per axis the two
plane parameters are sorted by `min`/`max`; the largest lower and smallest
upper values are folded together with the query range; hit iff strictly
non-empty. -/
def hit (a : AABB) (ray : Ray3) (r : TRange) : Bool :=
  let t0 := AABB.t a.lo ray
  let t1 := AABB.t a.hi ray
  let t_lower := fun i => F64.fmin (t0 i) (t1 i)
  let t_upper := fun i => F64.fmax (t0 i) (t1 i)
  let t_min := F64.fmax (F64.fmax (F64.fmax (F64.fin r.start) (t_lower 0)) (t_lower 1)) (t_lower 2)
  let t_max := F64.fmin (F64.fmin (F64.fmin (F64.fin r.stop) (t_upper 0)) (t_upper 1)) (t_upper 2)
  F64.flt t_min t_max

/-- `AABB::hit` including its `assert!(t_range.start < t_range.end)`:
`none` models the panic on a degenerate or reversed range. -/
def hitP (a : AABB) (ray : Ray3) (r : TRange) : Option Bool :=
  if r.start < r.stop then some (a.hit ray r) else none

/-- `AABB::merge` on optioned boxes. -/
def merge : Option AABB → Option AABB → Option AABB
  | some a, some b => some ⟨pmin a.lo b.lo, pmax a.hi b.hi⟩
  | some a, none => some a
  | none, b => b

/-- `AABB::volume`: product of the extents, absolute value. -/
def volume (a : AABB) : ℚ :=
  |(a.hi.x - a.lo.x) * (a.hi.y - a.lo.y) * (a.hi.z - a.lo.z)|

end AABB

/-- Materials are opaque to every claim under verification; the `&mut Material`
handle returned by `hit` is modelled as an identifier. -/
abbrev Material := ℕ

/-- The two `f64` functions used by `Sphere::hit` that have no exact rational
counterpart, kept abstract: `f64::sqrt`, and the transcendental UV map
`Sphere::uv` (`acos`/`atan2`).  Theorems quantify over this record, so they
hold for the concrete `f64` functions in particular. -/
structure Oracles : Type where
  sqrt : ℚ → ℚ
  uv : Point3 → ℚ × ℚ

/-- `rtow::hit_record::HitRecord` (without the material handle, which
`object.rs` returns alongside the record). -/
structure HitRecord : Type where
  point : Point3
  normal : Vec3
  t : ℚ
  u : ℚ
  v : ℚ
  front_face : Bool
deriving DecidableEq

/-- `HitRecord::new`: `front_face ⇔ dot(direction, outward_normal) < 0`; the
stored normal is the outward normal on a front face and its negation
otherwise. -/
def HitRecord.new (point : Point3) (outward_normal : Vec3) (ray_in : Ray3)
    (t u v : ℚ) : HitRecord :=
  let front_face := decide (ray_in.direction.dot outward_normal < 0)
  let normal := if front_face then outward_normal else outward_normal.neg
  ⟨point, normal, t, u, v, front_face⟩

/-- `rtow::object::Sphere`: a (possibly moving) sphere, centered on a ray. -/
structure Sphere : Type where
  location : Ray3
  radius : ℚ
  material : Material
deriving DecidableEq

namespace Sphere

/-- `Sphere::center`: `location.at(time - location.time)`. -/
def center (s : Sphere) (time : ℚ) : Point3 := s.location.at (time - s.location.time)

/-- `Sphere::hit`: solve the quadratic, take the smaller root if the range
contains it, otherwise the larger root if the range contains that, otherwise
miss.  `sqrt` and `uv` come from the oracles. -/
def hit (O : Oracles) (s : Sphere) (ray : Ray3) (t_range : TRange) :
    Option (HitRecord × Material) :=
  let c := s.center ray.time
  let oc := ray.origin.sub c
  let a := ray.direction.dot ray.direction
  let half_b := ray.direction.dot oc
  let cc := oc.dot oc - s.radius * s.radius
  let delta := half_b * half_b - a * cc
  if delta < 0 then none
  else
    let sqrtd := O.sqrt delta
    let root1 := (-half_b - sqrtd) / a
    let root2 := (-half_b + sqrtd) / a
    let accept := fun (root : ℚ) =>
      let point := ray.at root
      let outward_normal := (point.sub c).sdiv s.radius
      let uvp := O.uv ⟨outward_normal.x, outward_normal.y, outward_normal.z⟩
      some (HitRecord.new point outward_normal ray root uvp.1 uvp.2, s.material)
    if t_range.contains root1 then accept root1
    else if t_range.contains root2 then accept root2
    else none

/-- `Sphere::bounding_box`: merge of the radius cubes at the two endpoint
times.  `AABB::new` panics (outer `none`) when the radius is zero. -/
def bounding_box (s : Sphere) (t_range : TRange) : Option (Option AABB) := do
  let rvec : Vec3 := ⟨s.radius, s.radius, s.radius⟩
  let center0 := s.center t_range.start
  let center1 := s.center t_range.stop
  let box0 ← AABB.new (center0.subVec rvec) (center0.addVec rvec)
  let box1 ← AABB.new (center1.subVec rvec) (center1.addVec rvec)
  pure (AABB.merge (some box0) (some box1))

end Sphere

/-- The common shape of the three `rect!`-generated rectangle types: two
in-plane ranges (in the order the macro lists them), the offset on the normal
axis, and the material.  `XYRect` has `s1 = x, s2 = y, k = z`;
`XZRect` has `s1 = x, s2 = z, k = y`; `YZRect` has `s1 = y, s2 = z, k = x`. -/
structure RectG : Type where
  material : Material
  s1 : TRange
  s2 : TRange
  k : ℚ
deriving DecidableEq

/-- `f64::signum` on a (finite, nonzero along the code path) rational. -/
def qsignum (q : ℚ) : ℚ := if q < 0 then -1 else 1

/-- The `rect!` macro's `hit`, generic over the two in-plane axes `a1, a2`
and the normal axis `a3`.  The plane parameter is computed by IEEE division:
a non-finite `t` (zero direction component along the normal axis) fails
`t_range.contains` against the finite range and is a miss. -/
def rectHit (a1 a2 a3 : Fin 3) (g : RectG) (ray_in : Ray3) (t_range : TRange) :
    Option (HitRecord × Material) :=
  match F64.fdiv (g.k - ray_in.origin.get a3) (ray_in.direction.get a3) with
  | F64.fin t =>
    if t_range.contains t then
      let p := ray_in.at t
      if g.s1.contains (p.get a1) && g.s2.contains (p.get a2) then
        let u := (p.get a1 - g.s1.start) / (g.s1.stop - g.s1.start)
        let v := (p.get a2 - g.s2.start) / (g.s2.stop - g.s2.start)
        let outward_normal := Vec3.unitAxis a3 (-qsignum (ray_in.direction.get a3))
        some (HitRecord.new p outward_normal ray_in t u v, g.material)
      else none
    else none
  | _ => none

/-- `XYRect::bounding_box`: the plane thickened by `epsilon = 1.0` on the
normal axis (`unpermute` of the identity permutation spelled out). -/
def XYRect.bounding_box (g : RectG) : Option (Option AABB) := do
  let ab ← AABB.new ⟨g.s1.start, g.s2.start, g.k - 1⟩ ⟨g.s1.stop, g.s2.stop, g.k + 1⟩
  pure (some ab)

/-- `XZRect::bounding_box` (`unpermute([X, Z, Y])` spelled out). -/
def XZRect.bounding_box (g : RectG) : Option (Option AABB) := do
  let ab ← AABB.new ⟨g.s1.start, g.k - 1, g.s2.start⟩ ⟨g.s1.stop, g.k + 1, g.s2.stop⟩
  pure (some ab)

/-- `YZRect::bounding_box` (`unpermute([Y, Z, X])` spelled out). -/
def YZRect.bounding_box (g : RectG) : Option (Option AABB) := do
  let ab ← AABB.new ⟨g.k - 1, g.s1.start, g.s2.start⟩ ⟨g.k + 1, g.s1.stop, g.s2.stop⟩
  pure (some ab)

/-- `rtow::object::Object`: the closed tagged union over primitives and
aggregates.  A `BVHNode` is its `aabb` plus two children.  (`RectPrism` is
outside the embedded fragment, see the module conventions.) -/
inductive Object : Type where
  | sphere (s : Sphere)
  | xyRect (g : RectG)
  | xzRect (g : RectG)
  | yzRect (g : RectG)
  | list (objects : List Object)
  | bvh (aabb : AABB) (left right : Object)

mutual

/-- `Object::bounding_box` dispatch.  Outer `Option` is the panic layer
(`AABB::new` assertions); the inner `Option` is the "no bounding box"
result. -/
def Object.bounding_box : Object → TRange → Option (Option AABB)
  | .sphere s, t_range => s.bounding_box t_range
  | .xyRect g, _ => XYRect.bounding_box g
  | .xzRect g, _ => XZRect.bounding_box g
  | .yzRect g, _ => YZRect.bounding_box g
  | .list objects, t_range => listBB objects t_range none
  | .bvh aabb _ _, _ => some (some aabb)

/-- `List::bounding_box`: left fold of `AABB::merge` over the members,
starting from `None`. -/
def listBB : List Object → TRange → Option AABB → Option (Option AABB)
  | [], _, acc => some acc
  | o :: rest, t_range, acc => do
    let obb ← o.bounding_box t_range
    listBB rest t_range (AABB.merge acc obb)

end

/-- `BVHNode::object_lo` composed with an axis projection: the sort key of the
builder.  `none` is the panic of `bounding_box(..).unwrap()` (object without a
bounding box) or a panic inside `bounding_box` itself. -/
def objectLo (t_range : TRange) (ax : Fin 3) (o : Object) : Option ℚ :=
  match o.bounding_box t_range with
  | some (some ab) => some (ab.lo.get ax)
  | _ => none

/-- The builder's in-place sort of the slice by the axis key.  The sort
evaluates the key of every element (the slice has length ≥ 3 whenever the
builder sorts), so a missing key — `unwrap` of a `None` bounding box — is a
panic, modelled eagerly.  `partial_cmp(..).unwrap()` cannot fail on exact
rationals (no NaN).  A deterministic sort stands in for `sort_unstable_by`;
no claim depends on the order of equal keys. -/
def sortByAxis (t_range : TRange) (ax : Fin 3) (l : List Object) : Option (List Object) :=
  if l.all (fun o => (objectLo t_range ax o).isSome) then
    some (List.insertionSort
      (fun a b => (objectLo t_range ax a).getD 0 ≤ (objectLo t_range ax b).getD 0) l)
  else none

/-- The volume-ratio of a candidate split, from the tail of `BVHNode::lr`:
`max(vl, vr) / min(vl, vr)` of the children's bounding-box volumes, with the
`unwrap` panics modelled. -/
def ratioOf (left right : Object) (t_range : TRange) : Option ℚ := do
  let lbbO ← left.bounding_box t_range
  let lab ← lbbO
  let rbbO ← right.bounding_box t_range
  let rab ← rbbO
  let vl := lab.volume
  let vr := rab.volume
  pure (max vl vr / min vl vr)

/-- `BVHNode::from_vec` (with `lr` inlined).  For `n ≤ 2` objects the children
are `objects[0]` and `objects[1]` (or a duplicate of the left) — indexing an
empty slice is a panic.  Otherwise the slice is sorted by each axis in turn
(each sort acting on the result of the previous one, as the in-place sorts
do), split at the middle, built recursively, and the axis with the smallest
volume ratio wins, ties breaking in axis order X, Y, Z. -/
def BVHNode.from_vec (l : List Object) (t_range : TRange) : Option Object :=
  if h : l.length ≤ 2 then
    match l.get? 0 with
    | none => none
    | some left =>
      match (if l.length = 2 then l.get? 1 else some left) with
      | none => none
      | some right =>
        match left.bounding_box t_range, right.bounding_box t_range with
        | some (some left_aabb), some (some right_aabb) =>
          match AABB.merge (some left_aabb) (some right_aabb) with
          | some aabb => some (Object.bvh aabb left right)
          | none => none
        | _, _ => none
  else
    match hx : sortByAxis t_range 0 l with
    | none => none
    | some l1 =>
      match BVHNode.from_vec (l1.take (l1.length / 2)) t_range,
            BVHNode.from_vec (l1.drop (l1.length / 2)) t_range with
      | some xl, some xr =>
        match ratioOf xl xr t_range with
        | none => none
        | some xratio =>
          match hy : sortByAxis t_range 1 l1 with
          | none => none
          | some l2 =>
            match BVHNode.from_vec (l2.take (l2.length / 2)) t_range,
                  BVHNode.from_vec (l2.drop (l2.length / 2)) t_range with
            | some yl, some yr =>
              match ratioOf yl yr t_range with
              | none => none
              | some yratio =>
                match hz : sortByAxis t_range 2 l2 with
                | none => none
                | some l3 =>
                  match BVHNode.from_vec (l3.take (l3.length / 2)) t_range,
                        BVHNode.from_vec (l3.drop (l3.length / 2)) t_range with
                  | some zl, some zr =>
                    match ratioOf zl zr t_range with
                    | none => none
                    | some zratio =>
                      let smallest := min xratio (min yratio zratio)
                      let lr : Object × Object :=
                        if xratio = smallest then (xl, xr)
                        else if yratio = smallest then (yl, yr)
                        else (zl, zr)
                      match (lr.1).bounding_box t_range, (lr.2).bounding_box t_range with
                      | some (some left_aabb), some (some right_aabb) =>
                        match AABB.merge (some left_aabb) (some right_aabb) with
                        | some aabb => some (Object.bvh aabb lr.1 lr.2)
                        | none => none
                      | _, _ => none
                  | _, _ => none
            | _, _ => none
      | _, _ => none
termination_by l.length
decreasing_by
  · have hlen : l1.length = l.length := by
      unfold sortByAxis at hx
      split at hx
      · injection hx with hx
        subst hx
        exact List.length_insertionSort _ _
      · exact Option.noConfusion hx
    simp only [List.length_take]
    omega
  · have hlen : l1.length = l.length := by
      unfold sortByAxis at hx
      split at hx
      · injection hx with hx
        subst hx
        exact List.length_insertionSort _ _
      · exact Option.noConfusion hx
    simp only [List.length_drop]
    omega
  · have hlen1 : l1.length = l.length := by
      unfold sortByAxis at hx
      split at hx
      · injection hx with hx
        subst hx
        exact List.length_insertionSort _ _
      · exact Option.noConfusion hx
    have hlen2 : l2.length = l1.length := by
      unfold sortByAxis at hy
      split at hy
      · injection hy with hy
        subst hy
        exact List.length_insertionSort _ _
      · exact Option.noConfusion hy
    simp only [List.length_take]
    omega
  · have hlen1 : l1.length = l.length := by
      unfold sortByAxis at hx
      split at hx
      · injection hx with hx
        subst hx
        exact List.length_insertionSort _ _
      · exact Option.noConfusion hx
    have hlen2 : l2.length = l1.length := by
      unfold sortByAxis at hy
      split at hy
      · injection hy with hy
        subst hy
        exact List.length_insertionSort _ _
      · exact Option.noConfusion hy
    simp only [List.length_drop]
    omega
  · have hlen1 : l1.length = l.length := by
      unfold sortByAxis at hx
      split at hx
      · injection hx with hx
        subst hx
        exact List.length_insertionSort _ _
      · exact Option.noConfusion hx
    have hlen2 : l2.length = l1.length := by
      unfold sortByAxis at hy
      split at hy
      · injection hy with hy
        subst hy
        exact List.length_insertionSort _ _
      · exact Option.noConfusion hy
    have hlen3 : l3.length = l2.length := by
      unfold sortByAxis at hz
      split at hz
      · injection hz with hz
        subst hz
        exact List.length_insertionSort _ _
      · exact Option.noConfusion hz
    simp only [List.length_take]
    omega
  · have hlen1 : l1.length = l.length := by
      unfold sortByAxis at hx
      split at hx
      · injection hx with hx
        subst hx
        exact List.length_insertionSort _ _
      · exact Option.noConfusion hx
    have hlen2 : l2.length = l1.length := by
      unfold sortByAxis at hy
      split at hy
      · injection hy with hy
        subst hy
        exact List.length_insertionSort _ _
      · exact Option.noConfusion hy
    have hlen3 : l3.length = l2.length := by
      unfold sortByAxis at hz
      split at hz
      · injection hz with hz
        subst hz
        exact List.length_insertionSort _ _
      · exact Option.noConfusion hz
    simp only [List.length_drop]
    omega

/-- `slice::swap` on the modelled object list (callers keep indices in
bounds). -/
def listSwap (l : List Object) (i j : ℕ) : List Object :=
  match l.get? i, l.get? j with
  | some a, some b => (l.set i b).set j a
  | _, _ => l

/-- The two-pointer sweep of `BVHNode::from_list`: objects whose
`bounding_box` is `None` are swapped to the front; returns the final front
pointer `i` and the rearranged list.  A panic inside `bounding_box`
propagates. -/
def sweepGo (t_range : TRange) : List ℕ → ℕ → List Object → Option (ℕ × List Object)
  | [], i, l => some (i, l)
  | j :: js, i, l =>
    match l.get? j with
    | none => none
    | some o =>
      match o.bounding_box t_range with
      | none => none
      | some none => sweepGo t_range js (i + 1) (listSwap l i j)
      | some (some _) => sweepGo t_range js i l

/-- `BVHNode::from_list`: partition the un-boundable objects to the front,
then build from the boundable tail. -/
def BVHNode.from_list (olist : List Object) (t_range : TRange) : Option Object := do
  let (i, l2) ← sweepGo t_range (List.range olist.length) 0 olist
  BVHNode.from_vec (l2.drop i) t_range

mutual

/-- `Object::hit` dispatch and the `BVHNode::hit` traversal.  The outer
`Option` is the panic layer: `AABB::hit`'s range assertion is the one
reachable panic.  The BVH case: test the node's box first (miss → `None`);
then the left child over the full range; on a left hit, the right child over
`[start, t_left]`, preferring the right (closer) hit; on a left miss, the
right child over the unchanged range. -/
def Object.hit (O : Oracles) : Object → Ray3 → TRange → Option (Option (HitRecord × Material))
  | .sphere s, ray, t_range => some (s.hit O ray t_range)
  | .xyRect g, ray, t_range => some (rectHit 0 1 2 g ray t_range)
  | .xzRect g, ray, t_range => some (rectHit 0 2 1 g ray t_range)
  | .yzRect g, ray, t_range => some (rectHit 1 2 0 g ray t_range)
  | .list objects, ray, t_range => listHit O objects ray t_range none
  | .bvh aabb left right, ray_in, t_range =>
    match AABB.hitP aabb ray_in t_range with
    | none => none
    | some false => some none
    | some true =>
      match Object.hit O left ray_in t_range with
      | none => none
      | some (some (hit_l, mat_l)) =>
        match Object.hit O right ray_in ⟨t_range.start, hit_l.t⟩ with
        | none => none
        | some (some hr) => some (some hr)
        | some none => some (some (hit_l, mat_l))
      | some none => Object.hit O right ray_in t_range

/-- `List::hit`: fold over the members, tightening the upper bound of the
query range to the closest hit's `t` found so far. -/
def listHit (O : Oracles) : List Object → Ray3 → TRange → Option (HitRecord × Material) →
    Option (Option (HitRecord × Material))
  | [], _, _, closest => some closest
  | o :: rest, ray, t_range, closest =>
    let t_max := match closest with
      | none => t_range.stop
      | some (rec, _) => rec.t
    match Object.hit O o ray ⟨t_range.start, t_max⟩ with
    | none => none
    | some res =>
      listHit O rest ray t_range (match res with | some h => some h | none => closest)

end

/-- The slab overlap test of `AABB::hit` with one axis removed: the folds of
`t_lower` / `t_upper` over the other two axes only (in axis order), against
the same query range.  Used to state the zero-direction-component claim. -/
def AABB.hitDropAxis (a : AABB) (ray : Ray3) (r : TRange) (i : Fin 3) : Bool :=
  let t0 := AABB.t a.lo ray
  let t1 := AABB.t a.hi ray
  let t_lower := fun j => F64.fmin (t0 j) (t1 j)
  let t_upper := fun j => F64.fmax (t0 j) (t1 j)
  match i with
  | ⟨0, _⟩ =>
    F64.flt (F64.fmax (F64.fmax (F64.fin r.start) (t_lower 1)) (t_lower 2))
      (F64.fmin (F64.fmin (F64.fin r.stop) (t_upper 1)) (t_upper 2))
  | ⟨1, _⟩ =>
    F64.flt (F64.fmax (F64.fmax (F64.fin r.start) (t_lower 0)) (t_lower 2))
      (F64.fmin (F64.fmin (F64.fin r.stop) (t_upper 0)) (t_upper 2))
  | ⟨2, _⟩ =>
    F64.flt (F64.fmax (F64.fmax (F64.fin r.start) (t_lower 0)) (t_lower 1))
      (F64.fmin (F64.fmin (F64.fin r.stop) (t_upper 0)) (t_upper 1))

/-- `rtow::sampler::SquareSampler` (`u32` fields modelled by `ℕ`). -/
structure SquareSampler : Type where
  width : ℕ
  height : ℕ
  n : ℕ
  n2 : ℕ
  max_depth : ℕ
deriving DecidableEq

/-- `SquareSampler::new`: `n2 = n * n`. -/
def SquareSampler.new (n max_depth width height : ℕ) : SquareSampler :=
  ⟨width, height, n, n * n, max_depth⟩

/-- `SquareSamplerIter::next` for pixel `(x, y)` at state `sample`: `None`
once `sample = n²`; otherwise the sub-pixel coordinate pair and the stepped
state.  `i` is `(sample % n) as f64 / n as f64`; `j` is
`(sample / n2) as f64` — an integer division by `n²`, cast AFTER dividing. -/
def SquareSamplerIter.next (s : SquareSampler) (x y sample : ℕ) :
    Option ((ℚ × ℚ) × ℕ) :=
  if sample = s.n2 then none
  else
    let i : ℚ := ((sample % s.n : ℕ) : ℚ) / (s.n : ℚ)
    let j : ℚ := ((sample / s.n2 : ℕ) : ℚ)
    let u := ((x : ℚ) + i) / (s.width : ℚ)
    let v := ((y : ℚ) + j) / (s.height : ℚ)
    some ((u, v), sample + 1)

/-- `rtow::color::FloatRgb` over finite values. -/
structure FloatRgb : Type where
  r : ℚ
  g : ℚ
  b : ℚ
deriving DecidableEq

/-- `rtow::texture::ImageTextureInit`: decoded image state. -/
structure ImageTextureInit : Type where
  width : ℕ
  height : ℕ
  bytes_per_row : ℕ
  data : List ℕ
deriving DecidableEq

/-- `rtow::texture::ImageTexture`: uninitialised (a file name) or
initialised (`None` records a load failure). -/
inductive ImageTexture : Type where
  | U (filename : String)
  | I (s : Option ImageTextureInit)
deriving DecidableEq

/-- The outcome of the file system and PNG decoder for a file name — the
external collaborators of `ImageTexture::init`. -/
inductive FileOutcome : Type where
  | missing
  | badPng
  | ok (i : ImageTextureInit)
deriving DecidableEq

/-- `ImageTexture::init`: `File::open` failure gives `Init(None)` (recorded
load failure); a file that opens but fails the PNG decoder's checks panics
(`unwrap_or_else(panic!)` / `assert!`); success gives the decoded state. -/
def ImageTexture.init (env : String → FileOutcome) (filename : String) :
    Option (Option ImageTextureInit) :=
  match env filename with
  | FileOutcome.missing => some none
  | FileOutcome.badPng => none
  | FileOutcome.ok i => some (some i)

/-- `ImageTexture::value_calc`: cyan `(0, 1, 1)` when the decoded state is
`None`; otherwise the nearest texel at the clamped `(u, 1 - v)`.  `as usize`
truncation of the non-negative products is `⌊·⌋`; the byte-slice indexing can
panic (outer `none`) if the stride and buffer disagree. -/
def ImageTexture.value_calc (s : Option ImageTextureInit) (u v : ℚ) :
    Option FloatRgb :=
  match s with
  | none => some ⟨0, 1, 1⟩
  | some it =>
    if it.width = 0 ∨ it.height = 0 then none
    else
      let uc := min (max u 0) 1
      let vc := 1 - min (max v 0) 1
      let i := min (uc * (it.width : ℚ)).floor.toNat (it.width - 1)
      let j := min (vc * (it.height : ℚ)).floor.toNat (it.height - 1)
      let start := j * it.bytes_per_row + i * 3
      match it.data.get? start, it.data.get? (start + 1), it.data.get? (start + 2) with
      | some r, some g, some b =>
        some ⟨(r : ℚ) / 255, (g : ℚ) / 255, (b : ℚ) / 255⟩
      | _, _, _ => none

/-- `ImageTexture::value`: promote `U` to `I` via `init` on first sample,
then `value_calc`; returns the color and the updated texture state. -/
def ImageTexture.value (env : String → FileOutcome) :
    ImageTexture → ℚ → ℚ → Option (FloatRgb × ImageTexture)
  | ImageTexture.U filename, u, v => do
    let s ← ImageTexture.init env filename
    let c ← ImageTexture.value_calc s u v
    pure (c, ImageTexture.I s)
  | ImageTexture.I s, u, v => do
    let c ← ImageTexture.value_calc s u v
    pure (c, ImageTexture.I s)

namespace Perlin

/-- A swap of two positions of an array modelled as a function from positions
to values (`Vec::swap`). -/
def swapFn (p : ℕ → ℕ) (i j : ℕ) : ℕ → ℕ := fun x =>
  if x = i then p j else if x = j then p i else p x

/-- `Perlin::permute` on an array of length `len`, as a function on
positions: `for i in (1..len).rev() { p.swap(i, target i) }` where
`target i` is the draw of `rng.random_range(0..i)`.  Recursion peels the
highest index first, exactly as the loop runs. -/
def permuteFn (target : ℕ → ℕ) : ℕ → (ℕ → ℕ) → (ℕ → ℕ)
  | 0, p => p
  | 1, p => p
  | n + 2, p => permuteFn target (n + 1) (swapFn p (n + 1) (target (n + 1)))

/-- `Perlin::generate_perm`: the identity array `[0, 1, …, size-1]` shuffled
in place by `permute`.  The result at position `idx` is
`permuteFn target size id idx`. -/
def generate_perm (target : ℕ → ℕ) (size : ℕ) : List ℕ :=
  (List.range size).map (permuteFn target size id)

end Perlin

/-- `rtow::color::FRgbAccumulator`: running componentwise sum and a sample
count. -/
structure FRgbAccumulator : Type where
  sum : ℚ × ℚ × ℚ
  count : ℕ
deriving DecidableEq

namespace FRgbAccumulator

/-- `FRgbAccumulator::new`: zero sum, zero count. -/
def new : FRgbAccumulator := ⟨(0, 0, 0), 0⟩

/-- `FRgbAccumulator::average`: unguarded componentwise IEEE division of the
sum by the count — total, with `0.0 / 0.0 = NaN`. -/
def average (acc : FRgbAccumulator) : F64 × F64 × F64 :=
  (F64.fdiv acc.sum.1 (acc.count : ℚ), F64.fdiv acc.sum.2.1 (acc.count : ℚ),
    F64.fdiv acc.sum.2.2 (acc.count : ℚ))

/-- `AddAssign<FloatRgb>`: componentwise sum, count incremented. -/
def add_assign (acc : FRgbAccumulator) (rhs : FloatRgb) : FRgbAccumulator :=
  ⟨(acc.sum.1 + rhs.r, acc.sum.2.1 + rhs.g, acc.sum.2.2 + rhs.b), acc.count + 1⟩

end FRgbAccumulator

/-- Whether an object is a primitive (sphere or rectangle) rather than an
aggregate. -/
def Object.primitive : Object → Bool
  | .sphere _ => true
  | .xyRect _ => true
  | .xzRect _ => true
  | .yzRect _ => true
  | .list _ => false
  | .bvh _ _ _ => false

/-- Concrete oracles for evaluating rectangle-only scenes (where `sqrt` and
`uv` are never consulted). -/
def oracles0 : Oracles := ⟨fun _ => 0, fun _ => (0, 0)⟩

/-! ## Helper lemmas -/

theorem F64.fmax_right_pinf (x : F64) : F64.fmax x F64.pinf = F64.pinf := by
  cases x <;> rfl

theorem F64.fmax_left_pinf (x : F64) : F64.fmax F64.pinf x = F64.pinf := by
  cases x <;> rfl

theorem F64.fmin_right_ninf (x : F64) : F64.fmin x F64.ninf = F64.ninf := by
  cases x <;> rfl

theorem F64.fmin_left_ninf (x : F64) : F64.fmin F64.ninf x = F64.ninf := by
  cases x <;> rfl

theorem F64.flt_left_pinf (x : F64) : F64.flt F64.pinf x = false := by
  cases x <;> rfl

theorem F64.flt_right_ninf (x : F64) : F64.flt x F64.ninf = false := by
  cases x <;> rfl

theorem F64.fmax_right_ninf {x : F64} (h : x ≠ F64.nan) : F64.fmax x F64.ninf = x := by
  cases x <;> first | rfl | exact absurd rfl h

theorem F64.fmin_right_pinf {x : F64} (h : x ≠ F64.nan) : F64.fmin x F64.pinf = x := by
  cases x <;> first | rfl | exact absurd rfl h

theorem F64.fmax_ne_nan {x : F64} (h : x ≠ F64.nan) (y : F64) :
    F64.fmax x y ≠ F64.nan := by
  cases x <;> cases y <;> simp [F64.fmax] <;> exact absurd rfl h

theorem F64.fmin_ne_nan {x : F64} (h : x ≠ F64.nan) (y : F64) :
    F64.fmin x y ≠ F64.nan := by
  cases x <;> cases y <;> simp [F64.fmin] <;> exact absurd rfl h

theorem Vec3.dot_neg (v w : Vec3) : v.dot w.neg = -(v.dot w) := by
  simp [Vec3.dot, Vec3.neg]; ring

/-! ## Claim theorems -/

/-- C9: for every hit record constructed from an incoming ray and an outward
normal, `front_face` is true iff `dot(ray.direction, outward_normal) < 0`,
and the stored normal — the outward normal when `front_face` is true, its
negation otherwise — satisfies `dot(ray.direction, normal) ≤ 0`. -/
theorem hit_record_front_face_normal (point : Point3) (outward_normal : Vec3)
    (ray_in : Ray3) (t u v : ℚ) :
    ((HitRecord.new point outward_normal ray_in t u v).front_face = true ↔
      ray_in.direction.dot outward_normal < 0)
    ∧ ((HitRecord.new point outward_normal ray_in t u v).normal =
        if (HitRecord.new point outward_normal ray_in t u v).front_face then
          outward_normal else outward_normal.neg)
    ∧ ray_in.direction.dot (HitRecord.new point outward_normal ray_in t u v).normal ≤ 0 := by
  unfold HitRecord.new
  by_cases h : ray_in.direction.dot outward_normal < 0 <;>
    simp [h, Vec3.dot_neg] <;> linarith

/-- C10: `average()` on a freshly created accumulator (count = 0) is total —
the embedded IEEE division never panics — and every component of the result
is NaN, from the division `0.0 / 0.0`. -/
theorem accumulator_average_empty_nan :
    FRgbAccumulator.average FRgbAccumulator.new = (F64.nan, F64.nan, F64.nan) := by
  decide

/-- C6 (divergence witness): at `n = 2` samples per axis on a 1×1 image, the
third sample (`k = 2`) of pixel `(0, 0)` has sub-pixel coordinates
`(u, v) = (0, 0)`: the code computes `j = k / n² = 0` for every `k < n²`,
whereas the claimed formula `(y + (k div n)/n) / height` gives `v = 1/2`. -/
theorem sampler_third_sample_v_zero :
    SquareSamplerIter.next (SquareSampler.new 2 50 1 1) 0 0 2 = some ((0, 0), 3) := by
  norm_num [SquareSamplerIter.next, SquareSampler.new]

/-- C7: when the backing file of an image texture fails to open, the first
sample promotes the texture to the failed state `I(None)` and returns cyan
`(0, 1, 1)`, and every sample of the failed state returns cyan and preserves
the state; no panic occurs on this path. -/
theorem image_texture_load_failure_cyan (env : String → FileOutcome)
    (filename : String) (u v u' v' : ℚ) (h : env filename = FileOutcome.missing) :
    ImageTexture.value env (ImageTexture.U filename) u v =
      some (⟨0, 1, 1⟩, ImageTexture.I none)
    ∧ ImageTexture.value env (ImageTexture.I none) u' v' =
      some (⟨0, 1, 1⟩, ImageTexture.I none) := by
  constructor
  · simp [ImageTexture.value, ImageTexture.init, h, ImageTexture.value_calc]
  · simp [ImageTexture.value, ImageTexture.value_calc]

/-- C7 witness: the theorem applied to a concrete environment in which
`"earth.png"` is missing. -/
theorem image_texture_load_failure_cyan_witness :
    ImageTexture.value (fun _ => FileOutcome.missing) (ImageTexture.U "earth.png") 0 0 =
      some (⟨0, 1, 1⟩, ImageTexture.I none)
    ∧ ImageTexture.value (fun _ => FileOutcome.missing) (ImageTexture.I none) (1/2) (1/2) =
      some (⟨0, 1, 1⟩, ImageTexture.I none) :=
  image_texture_load_failure_cyan (fun _ => FileOutcome.missing) "earth.png" 0 0 (1/2) (1/2) rfl

/-- C3 counterexample: an `XYRect` at `z = 0` and the ray from `(0,0,1)`
along `(0,0,-1)` intersect the plane at exactly `t = 1 = range.end`, and
`hit` over `[0, 1]` ACCEPTS the boundary candidate and returns the hit
(`TRange::contains` is inclusive), where the claim says a candidate with
`t = range.end` is rejected. -/
theorem rect_hit_accepts_range_end :
    rectHit 0 1 2 ⟨7, ⟨-1, 1⟩, ⟨-1, 1⟩, 0⟩ ⟨⟨0, 0, 1⟩, ⟨0, 0, -1⟩, 0⟩ ⟨0, 1⟩ =
      some (⟨⟨0, 0, 0⟩, ⟨0, 0, 1⟩, 1, 1/2, 1/2, true⟩, 7) := by
  norm_num [rectHit, F64.fdiv, TRange.contains, Ray3.at, HitRecord.new, qsignum,
    Vec3.unitAxis, Vec3.dot, Point3.get, Vec3.get, Vec3.neg]

/-- C3 amended: a candidate parameter `t` is accepted exactly when it lies in
the CLOSED range `[range.start, range.end]` (`TRange::contains` is inclusive
at both endpoints, so `t = range.end` produces a hit); in particular every
hit returned by `Sphere::hit` or a rectangle's `hit` satisfies
`range.start ≤ t ≤ range.end`. -/
theorem primitive_hit_t_in_closed_range :
    (∀ (O : Oracles) (s : Sphere) (ray : Ray3) (r : TRange) (rec : HitRecord) (m : Material),
      Sphere.hit O s ray r = some (rec, m) → r.start ≤ rec.t ∧ rec.t ≤ r.stop)
    ∧ (∀ (a1 a2 a3 : Fin 3) (g : RectG) (ray : Ray3) (r : TRange) (rec : HitRecord) (m : Material),
      rectHit a1 a2 a3 g ray r = some (rec, m) → r.start ≤ rec.t ∧ rec.t ≤ r.stop) := by
  constructor
  · intro O s ray r rec m h
    simp only [Sphere.hit] at h
    split_ifs at h with h1 h2 h3 <;>
      first
      | exact Option.noConfusion h
      | (simp only [Option.some.injEq, Prod.mk.injEq] at h
         obtain ⟨hrec, -⟩ := h
         subst hrec
         simp only [HitRecord.new]
         simp only [TRange.contains, Bool.and_eq_true, decide_eq_true_eq, ge_iff_le] at *
         assumption)
  · intro a1 a2 a3 g ray r rec m h
    simp only [rectHit] at h
    split at h
    · split_ifs at h with h1 h2 <;>
        first
        | exact Option.noConfusion h
        | (simp only [Option.some.injEq, Prod.mk.injEq] at h
           obtain ⟨hrec, -⟩ := h
           subst hrec
           simp only [HitRecord.new]
           simp only [TRange.contains, Bool.and_eq_true, decide_eq_true_eq, ge_iff_le] at *
           assumption)
    · exact Option.noConfusion h

/-- C3 amended, witness: the range `[0, 1]` of the counterexample hit brackets
the returned `t = 1`, obtained by applying the amended theorem at the
concrete rectangle hit. -/
theorem primitive_hit_t_in_closed_range_witness :
    (⟨0, 1⟩ : TRange).start ≤ (⟨⟨0, 0, 0⟩, ⟨0, 0, 1⟩, 1, 1/2, 1/2, true⟩ : HitRecord).t
    ∧ (⟨⟨0, 0, 0⟩, ⟨0, 0, 1⟩, 1, 1/2, 1/2, true⟩ : HitRecord).t ≤ (⟨0, 1⟩ : TRange).stop :=
  primitive_hit_t_in_closed_range.2 0 1 2 ⟨7, ⟨-1, 1⟩, ⟨-1, 1⟩, 0⟩
    ⟨⟨0, 0, 1⟩, ⟨0, 0, -1⟩, 0⟩ ⟨0, 1⟩ _ 7
    (by norm_num [rectHit, F64.fdiv, TRange.contains, Ray3.at, HitRecord.new,
      qsignum, Vec3.unitAxis, Vec3.dot, Point3.get, Vec3.get])

/-- C1: `BVHNode::hit` follows the specified traversal.  Under the query
precondition `range.start < range.end`: (1) if the node's AABB misses the
ray over the range, the result is `None`; (2) if the AABB hits and the left
child misses, the result is the right child's result over the unchanged
range; (3) if the left child hits at `t_left` and the right child hits over
`[range.start, t_left]`, the right child's hit is returned; (4) if the left
child hits and the right child misses over `[range.start, t_left]`, the left
child's hit is returned. -/
theorem bvh_hit_traversal (O : Oracles) (aabb : AABB) (left right : Object)
    (ray_in : Ray3) (t_range : TRange) (hr : t_range.start < t_range.stop) :
    (aabb.hit ray_in t_range = false →
      Object.hit O (.bvh aabb left right) ray_in t_range = some none)
    ∧ (aabb.hit ray_in t_range = true →
        Object.hit O left ray_in t_range = some none →
        Object.hit O (.bvh aabb left right) ray_in t_range =
          Object.hit O right ray_in t_range)
    ∧ (∀ (hit_l : HitRecord) (mat_l : Material) (res : HitRecord × Material),
        aabb.hit ray_in t_range = true →
        Object.hit O left ray_in t_range = some (some (hit_l, mat_l)) →
        Object.hit O right ray_in ⟨t_range.start, hit_l.t⟩ = some (some res) →
        Object.hit O (.bvh aabb left right) ray_in t_range = some (some res))
    ∧ (∀ (hit_l : HitRecord) (mat_l : Material),
        aabb.hit ray_in t_range = true →
        Object.hit O left ray_in t_range = some (some (hit_l, mat_l)) →
        Object.hit O right ray_in ⟨t_range.start, hit_l.t⟩ = some none →
        Object.hit O (.bvh aabb left right) ray_in t_range =
          some (some (hit_l, mat_l))) := by
  refine ⟨fun hm => ?_, fun hh hl => ?_, fun hit_l mat_l res hh hl hrr => ?_,
    fun hit_l mat_l hh hl hrr => ?_⟩ <;>
    simp [Object.hit, AABB.hitP, hr, *]

/-- C1 witness: a two-rectangle BVH node and the ray from `(0,0,5)` along
`-z`: the left child hits at `t = 4`, the right child hits at `t = 2` within
`[0, 4]`, and the node returns the right (closer) hit — the third traversal
case of the theorem applied at concrete inputs. -/
theorem bvh_hit_traversal_witness :
    Object.hit oracles0
        (.bvh ⟨⟨-1, -1, 0⟩, ⟨1, 1, 4⟩⟩
          (.xyRect ⟨5, ⟨-1, 1⟩, ⟨-1, 1⟩, 1⟩)
          (.xyRect ⟨7, ⟨-1, 1⟩, ⟨-1, 1⟩, 3⟩))
        ⟨⟨0, 0, 5⟩, ⟨0, 0, -1⟩, 0⟩ ⟨0, 10⟩ =
      some (some (⟨⟨0, 0, 3⟩, ⟨0, 0, 1⟩, 2, 1/2, 1/2, true⟩, 7)) :=
  (bvh_hit_traversal oracles0 _ _ _ _ _ (by norm_num)).2.2.1
    ⟨⟨0, 0, 1⟩, ⟨0, 0, 1⟩, 4, 1/2, 1/2, true⟩ 5
    (⟨⟨0, 0, 3⟩, ⟨0, 0, 1⟩, 2, 1/2, 1/2, true⟩, 7)
    (by norm_num [AABB.hit, AABB.t, F64.fdiv, F64.fmin, F64.fmax, F64.flt,
      Point3.get, Vec3.get])
    (by simp only [Object.hit]
        norm_num [rectHit, F64.fdiv, TRange.contains, Ray3.at, HitRecord.new,
          qsignum, Vec3.unitAxis, Vec3.dot, Point3.get, Vec3.get])
    (by simp only [Object.hit]
        norm_num [rectHit, F64.fdiv, TRange.contains, Ray3.at, HitRecord.new,
          qsignum, Vec3.unitAxis, Vec3.dot, Point3.get, Vec3.get])

theorem primitive_hit_total (O : Oracles) {o : Object} (hp : o.primitive = true)
    (ray : Ray3) (rng : TRange) : ∃ res, Object.hit O o ray rng = some res := by
  cases o with
  | sphere s => exact ⟨Sphere.hit O s ray rng, by simp [Object.hit]⟩
  | xyRect g => exact ⟨rectHit 0 1 2 g ray rng, by simp [Object.hit]⟩
  | xzRect g => exact ⟨rectHit 0 2 1 g ray rng, by simp [Object.hit]⟩
  | yzRect g => exact ⟨rectHit 1 2 0 g ray rng, by simp [Object.hit]⟩
  | list objects => simp [Object.primitive] at hp
  | bvh a l r => simp [Object.primitive] at hp

/-- C4 amended: `BVHNode::hit` CAN panic — when the left child reports a hit
at exactly `t = range.start` and the right child is itself a BVH node, the
recursive right query runs over the degenerate range `[start, start]` and
`AABB::hit`'s assertion `start < end` fails (see the counterexample).  For a
node whose two children are primitives (spheres or rectangles), `hit` with
`range.start < range.end` always returns normally: `Some` for a hit, `None`
for a miss. -/
theorem bvh_hit_primitive_children_total (O : Oracles) (aabb : AABB)
    (left right : Object) (ray_in : Ray3) (t_range : TRange)
    (hr : t_range.start < t_range.stop)
    (hlp : left.primitive = true) (hrp : right.primitive = true) :
    ∃ res, Object.hit O (.bvh aabb left right) ray_in t_range = some res := by
  cases hb : aabb.hit ray_in t_range
  · exact ⟨none, by simp [Object.hit, AABB.hitP, hr, hb]⟩
  · obtain ⟨lres, hL⟩ := primitive_hit_total O hlp ray_in t_range
    cases lres with
    | none =>
      obtain ⟨rres, hR⟩ := primitive_hit_total O hrp ray_in t_range
      exact ⟨rres, by simp [Object.hit, AABB.hitP, hr, hb, hL, hR]⟩
    | some p =>
      obtain ⟨rres, hR⟩ := primitive_hit_total O hrp ray_in ⟨t_range.start, p.1.t⟩
      cases rres with
      | none => exact ⟨some p, by simp [Object.hit, AABB.hitP, hr, hb, hL, hR]⟩
      | some q => exact ⟨some q, by simp [Object.hit, AABB.hitP, hr, hb, hL, hR]⟩

/-- C4 amended, witness: a node with two rectangle children returns normally
on the range `[0, 10]`, by the amended theorem at concrete inputs. -/
theorem bvh_hit_primitive_children_total_witness :
    (Object.hit oracles0
        (.bvh ⟨⟨-1, -1, 0⟩, ⟨1, 1, 3⟩⟩
          (.xyRect ⟨1, ⟨-1, 1⟩, ⟨-1, 1⟩, 1⟩)
          (.xyRect ⟨2, ⟨-1, 1⟩, ⟨-1, 1⟩, 2⟩))
        ⟨⟨0, 0, 5⟩, ⟨0, 0, -1⟩, 0⟩ ⟨0, 10⟩).isSome = true := by
  obtain ⟨res, h⟩ := bvh_hit_primitive_children_total oracles0
    ⟨⟨-1, -1, 0⟩, ⟨1, 1, 3⟩⟩ (.xyRect ⟨1, ⟨-1, 1⟩, ⟨-1, 1⟩, 1⟩)
    (.xyRect ⟨2, ⟨-1, 1⟩, ⟨-1, 1⟩, 2⟩) ⟨⟨0, 0, 5⟩, ⟨0, 0, -1⟩, 0⟩ ⟨0, 10⟩
    (by norm_num) rfl rfl
  simp [h]

/-- C4 counterexample: a BVH built by `from_list` over a valid range, with a
NaN-free scene of one rectangle and one (pre-built, also boundable) BVH
node, intersected over `range = [4, 10]` (`start < end`) by the ray from
`(0,0,5)` along `-z`.  The left child hits at exactly `t = 4 = range.start`
(inclusive `contains`), so the right child — a BVH node — is queried over
the degenerate range `[4, 4]`, and `AABB::hit`'s assertion `start < end`
fails: the traversal panics (`some none`: the build succeeds, the hit is
the panic `none`) instead of returning `Some`/`None` normally. -/
theorem bvh_hit_assert_panic :
    (BVHNode.from_list
        [.xyRect ⟨1, ⟨-1, 1⟩, ⟨-1, 1⟩, 1⟩,
         .bvh ⟨⟨-1, -1, 1⟩, ⟨1, 1, 3⟩⟩
           (.xyRect ⟨2, ⟨-1, 1⟩, ⟨-1, 1⟩, 2⟩)
           (.xyRect ⟨3, ⟨-1, 1⟩, ⟨-1, 1⟩, 3⟩)] ⟨0, 1⟩).map
      (fun root => Object.hit oracles0 root ⟨⟨0, 0, 5⟩, ⟨0, 0, -1⟩, 0⟩ ⟨4, 10⟩)
      = some none := by
  have hA_bb : Object.bounding_box (.xyRect ⟨1, ⟨-1, 1⟩, ⟨-1, 1⟩, 1⟩) ⟨0, 1⟩ =
      some (some ⟨⟨-1, -1, 0⟩, ⟨1, 1, 2⟩⟩) := by
    norm_num [Object.bounding_box, XYRect.bounding_box, AABB.new, AABB.pmin, AABB.pmax]
  have hB_bb : Object.bounding_box
      (.bvh ⟨⟨-1, -1, 1⟩, ⟨1, 1, 3⟩⟩
        (.xyRect ⟨2, ⟨-1, 1⟩, ⟨-1, 1⟩, 2⟩)
        (.xyRect ⟨3, ⟨-1, 1⟩, ⟨-1, 1⟩, 3⟩)) ⟨0, 1⟩ =
      some (some ⟨⟨-1, -1, 1⟩, ⟨1, 1, 3⟩⟩) := by
    simp [Object.bounding_box]
  have hsweep : sweepGo (⟨0, 1⟩ : TRange) [0, 1] 0
      [.xyRect ⟨1, ⟨-1, 1⟩, ⟨-1, 1⟩, 1⟩,
       .bvh ⟨⟨-1, -1, 1⟩, ⟨1, 1, 3⟩⟩
         (.xyRect ⟨2, ⟨-1, 1⟩, ⟨-1, 1⟩, 2⟩)
         (.xyRect ⟨3, ⟨-1, 1⟩, ⟨-1, 1⟩, 3⟩)] =
      some (0,
        [.xyRect ⟨1, ⟨-1, 1⟩, ⟨-1, 1⟩, 1⟩,
         .bvh ⟨⟨-1, -1, 1⟩, ⟨1, 1, 3⟩⟩
           (.xyRect ⟨2, ⟨-1, 1⟩, ⟨-1, 1⟩, 2⟩)
           (.xyRect ⟨3, ⟨-1, 1⟩, ⟨-1, 1⟩, 3⟩)]) := by
    simp [sweepGo, hA_bb, hB_bb]
  have hfv : BVHNode.from_vec
      [.xyRect ⟨1, ⟨-1, 1⟩, ⟨-1, 1⟩, 1⟩,
       .bvh ⟨⟨-1, -1, 1⟩, ⟨1, 1, 3⟩⟩
         (.xyRect ⟨2, ⟨-1, 1⟩, ⟨-1, 1⟩, 2⟩)
         (.xyRect ⟨3, ⟨-1, 1⟩, ⟨-1, 1⟩, 3⟩)] ⟨0, 1⟩ =
      some (.bvh ⟨⟨-1, -1, 0⟩, ⟨1, 1, 3⟩⟩
        (.xyRect ⟨1, ⟨-1, 1⟩, ⟨-1, 1⟩, 1⟩)
        (.bvh ⟨⟨-1, -1, 1⟩, ⟨1, 1, 3⟩⟩
          (.xyRect ⟨2, ⟨-1, 1⟩, ⟨-1, 1⟩, 2⟩)
          (.xyRect ⟨3, ⟨-1, 1⟩, ⟨-1, 1⟩, 3⟩))) := by
    unfold BVHNode.from_vec
    rw [dif_pos (by decide)]
    norm_num [List.get?, hA_bb, hB_bb, AABB.merge, AABB.pmin, AABB.pmax]
  have hbuild : BVHNode.from_list
      [.xyRect ⟨1, ⟨-1, 1⟩, ⟨-1, 1⟩, 1⟩,
       .bvh ⟨⟨-1, -1, 1⟩, ⟨1, 1, 3⟩⟩
         (.xyRect ⟨2, ⟨-1, 1⟩, ⟨-1, 1⟩, 2⟩)
         (.xyRect ⟨3, ⟨-1, 1⟩, ⟨-1, 1⟩, 3⟩)] ⟨0, 1⟩ =
      some (.bvh ⟨⟨-1, -1, 0⟩, ⟨1, 1, 3⟩⟩
        (.xyRect ⟨1, ⟨-1, 1⟩, ⟨-1, 1⟩, 1⟩)
        (.bvh ⟨⟨-1, -1, 1⟩, ⟨1, 1, 3⟩⟩
          (.xyRect ⟨2, ⟨-1, 1⟩, ⟨-1, 1⟩, 2⟩)
          (.xyRect ⟨3, ⟨-1, 1⟩, ⟨-1, 1⟩, 3⟩))) := by
    unfold BVHNode.from_list
    rw [show List.range
        ([Object.xyRect ⟨1, ⟨-1, 1⟩, ⟨-1, 1⟩, 1⟩,
          Object.bvh ⟨⟨-1, -1, 1⟩, ⟨1, 1, 3⟩⟩
            (Object.xyRect ⟨2, ⟨-1, 1⟩, ⟨-1, 1⟩, 2⟩)
            (Object.xyRect ⟨3, ⟨-1, 1⟩, ⟨-1, 1⟩, 3⟩)] : List Object).length = [0, 1]
      from rfl]
    rw [hsweep]
    simpa using hfv
  rw [hbuild, Option.map_some']
  simp only [Object.hit]
  norm_num [AABB.hitP, AABB.hit, AABB.t, F64.fdiv, F64.fmin, F64.fmax, F64.flt,
    rectHit, TRange.contains, Ray3.at, HitRecord.new, qsignum, Vec3.unitAxis,
    Vec3.dot, Point3.get, Vec3.get]

theorem List.set_get_self : ∀ (l : List Object) (i : ℕ) (a : Object),
    l.get? i = some a → l.set i a = l
  | [], i, a, h => by simp at h
  | x :: xs, 0, a, h => by
    simp only [List.get?] at h
    injection h with h
    simp [h]
  | x :: xs, i + 1, a, h => by
    simp only [List.get?] at h
    simp [List.set_get_self xs i a h]

theorem listSwap_self (l : List Object) (i : ℕ) : listSwap l i i = l := by
  unfold listSwap
  cases h : l.get? i with
  | none => rfl
  | some a =>
    show (l.set i a).set i a = l
    rw [List.set_set, List.set_get_self l i a h]

theorem sweep_all_none (t_range : TRange) :
    ∀ (k i : ℕ) (l : List Object),
      (∀ o ∈ l, o.bounding_box t_range = some none) →
      (∀ j ∈ List.range' i k, j < l.length) →
      sweepGo t_range (List.range' i k) i l = some (i + k, l)
  | 0, i, l, _, _ => by simp [sweepGo]
  | k + 1, i, l, hbb, hlt => by
    have hi : i < l.length := hlt i (by rw [List.mem_range'_1]; omega)
    have ho : l.get? i = some (l.get ⟨i, hi⟩) := List.get?_eq_get hi
    have hom : l.get ⟨i, hi⟩ ∈ l := List.get_mem l i hi
    rw [List.range'_succ]
    simp only [sweepGo, ho, hbb _ hom, listSwap_self]
    have := sweep_all_none t_range k (i + 1) l hbb
      (by
        intro j hj
        apply hlt
        rw [List.mem_range'_1] at hj ⊢
        omega)
    rw [this]
    congr 2
    omega

/-- C5 counterexample: building a BVH from an EMPTY list does not yield a
no-op aggregate — `from_vec` indexes `objects[0]` of the empty slice and
panics (`none`), where the claim says the build succeeds. -/
theorem from_list_empty_panics : BVHNode.from_list [] ⟨0, 1⟩ = none := by
  have hempty : BVHNode.from_vec ([] : List Object) ⟨0, 1⟩ = none := by
    unfold BVHNode.from_vec
    rw [dif_pos (by decide)]
    rfl
  unfold BVHNode.from_list
  simp [sweepGo, hempty]

/-- C5 amended: building a BVH from an empty list, or from a list whose
objects all report no bounding box, PANICS instead of succeeding: the
pre-build filter excludes every object, and `from_vec` indexes `objects[0]`
of an empty slice. -/
theorem from_list_all_unboundable_panics (olist : List Object) (t_range : TRange)
    (h : ∀ o ∈ olist, o.bounding_box t_range = some none) :
    BVHNode.from_list olist t_range = none := by
  have hempty : BVHNode.from_vec ([] : List Object) t_range = none := by
    unfold BVHNode.from_vec
    rw [dif_pos (by decide)]
    rfl
  have hs := sweep_all_none t_range olist.length 0 olist h
    (by intro j hj; rw [List.mem_range'_1] at hj; omega)
  unfold BVHNode.from_list
  rw [List.range_eq_range', hs]
  simp [hempty]

/-- C5 amended, witness: a one-element list whose only member (an empty
`List` aggregate) has no bounding box, passed through the amended theorem. -/
theorem from_list_all_unboundable_panics_witness :
    BVHNode.from_list [Object.list []] ⟨0, 1⟩ = none :=
  from_list_all_unboundable_panics [Object.list []] ⟨0, 1⟩
    (by
      intro o ho
      simp only [List.mem_singleton] at ho
      subst ho
      simp [Object.bounding_box, listBB])

theorem Perlin.permuteFn_comp (t : ℕ → ℕ) : ∀ (n : ℕ) (p : ℕ → ℕ),
    Perlin.permuteFn t n p = p ∘ Perlin.permuteFn t n id
  | 0, _ => rfl
  | 1, _ => rfl
  | n + 2, p => by
    show Perlin.permuteFn t (n + 1) (Perlin.swapFn p (n + 1) (t (n + 1))) = _
    rw [Perlin.permuteFn_comp t (n + 1) (Perlin.swapFn p (n + 1) (t (n + 1)))]
    rw [show Perlin.permuteFn t (n + 2) id =
      Perlin.permuteFn t (n + 1) (Perlin.swapFn id (n + 1) (t (n + 1))) from rfl]
    rw [Perlin.permuteFn_comp t (n + 1) (Perlin.swapFn id (n + 1) (t (n + 1)))]
    funext x
    simp only [Function.comp_apply, Perlin.swapFn, id]
    split_ifs <;> rfl

theorem Perlin.swapFn_id_injective (i j : ℕ) :
    Function.Injective (Perlin.swapFn id i j) := by
  intro a b h
  unfold Perlin.swapFn at h
  split_ifs at h <;> simp_all <;> omega

theorem Perlin.permuteFn_props (t : ℕ → ℕ) (ht : ∀ i, 0 < i → t i < i) :
    ∀ n, (∀ x, n ≤ x → Perlin.permuteFn t n id x = x)
      ∧ (∀ x, x < n → Perlin.permuteFn t n id x < n)
      ∧ Function.Injective (Perlin.permuteFn t n id)
      ∧ (2 ≤ n → ∀ x, x < n → Perlin.permuteFn t n id x ≠ x)
  | 0 => ⟨fun _ _ => rfl, fun x hx => absurd hx (by omega),
      fun _ _ h => h, fun h2 => absurd h2 (by omega)⟩
  | 1 => ⟨fun _ _ => rfl, fun x hx => by simpa [Perlin.permuteFn] using hx,
      fun _ _ h => h, fun h2 => absurd h2 (by omega)⟩
  | n + 2 => by
    obtain ⟨ha, hb, hc, _⟩ := Perlin.permuteFn_props t ht (n + 1)
    have htn : t (n + 1) < n + 1 := ht (n + 1) (by omega)
    have hστ : Perlin.permuteFn t (n + 2) id =
        (Perlin.swapFn id (n + 1) (t (n + 1))) ∘ (Perlin.permuteFn t (n + 1) id) := by
      show Perlin.permuteFn t (n + 1) (Perlin.swapFn id (n + 1) (t (n + 1))) = _
      exact Perlin.permuteFn_comp t (n + 1) _
    refine ⟨?_, ?_, ?_, ?_⟩
    · intro x hx
      rw [hστ]
      simp only [Function.comp_apply]
      rw [ha x (by omega)]
      unfold Perlin.swapFn
      rw [if_neg (by omega), if_neg (by omega)]
      rfl
    · intro x hx
      rw [hστ]
      simp only [Function.comp_apply]
      by_cases hx1 : x = n + 1
      · subst hx1
        rw [ha (n + 1) (by omega)]
        unfold Perlin.swapFn
        rw [if_pos rfl]
        simp only [id_eq]
        omega
      · have hy : Perlin.permuteFn t (n + 1) id x < n + 1 := hb x (by omega)
        unfold Perlin.swapFn
        simp only [id_eq]
        split_ifs <;> omega
    · rw [hστ]
      exact (Perlin.swapFn_id_injective (n + 1) (t (n + 1))).comp hc
    · intro _ x hx
      rw [hστ]
      simp only [Function.comp_apply]
      by_cases hx1 : x = n + 1
      · subst hx1
        rw [ha (n + 1) (by omega)]
        unfold Perlin.swapFn
        rw [if_pos rfl]
        simp only [id_eq]
        omega
      · have hy : Perlin.permuteFn t (n + 1) id x < n + 1 := hb x (by omega)
        unfold Perlin.swapFn
        simp only [id_eq]
        split_ifs with h1 h2
        · omega
        · omega
        · by_cases hn : 1 ≤ n
          · exact (Perlin.permuteFn_props t ht (n + 1)).2.2.2 (by omega) x (by omega)
          · have hn0 : n = 0 := by omega
            subst hn0
            have hx0 : x = 0 := by omega
            subst hx0
            have : Perlin.permuteFn t 1 id 0 = 0 := rfl
            rw [this] at h2 ⊢
            have : t 1 = 0 := by omega
            exact absurd this.symm h2

/-- C8: for every table size ≥ 2 and every sequence of in-range shuffle draws
(`random_range(0..i)` returns a value `< i`, for every 64-bit seed), the
permutation array produced by `Perlin::generate_perm` is a bijection of
`[0, size)` — right length, no duplicates, containing exactly the values
below `size` — and a derangement: no index maps to itself.  `perm_x`,
`perm_y` and `perm_z` are three instances of `generate_perm` with different
draw sequences, so each satisfies this. -/
theorem generate_perm_bijection_derangement (target : ℕ → ℕ) (size : ℕ)
    (hsize : 2 ≤ size) (ht : ∀ i, 0 < i → target i < i) :
    (Perlin.generate_perm target size).length = size
    ∧ (∀ v, v ∈ Perlin.generate_perm target size ↔ v < size)
    ∧ (Perlin.generate_perm target size).Nodup
    ∧ (∀ idx (h : idx < (Perlin.generate_perm target size).length),
        (Perlin.generate_perm target size).get ⟨idx, h⟩ ≠ idx) := by
  obtain ⟨_, hb, hc, hd⟩ := Perlin.permuteFn_props target ht size
  have hlen : (Perlin.generate_perm target size).length = size := by
    simp [Perlin.generate_perm]
  refine ⟨hlen, ?_, ?_, ?_⟩
  · intro v
    constructor
    · intro hv
      simp only [Perlin.generate_perm, List.mem_map, List.mem_range] at hv
      obtain ⟨i, hi, rfl⟩ := hv
      exact hb i hi
    · intro hv
      let e : Fin size → Fin size := fun i => ⟨Perlin.permuteFn target size id i, hb i i.2⟩
      have he : Function.Injective e := by
        intro a b hab
        have : Perlin.permuteFn target size id a = Perlin.permuteFn target size id b :=
          congrArg Fin.val hab
        exact Fin.ext (hc this)
      obtain ⟨i, hi⟩ := Finite.injective_iff_surjective.mp he ⟨v, hv⟩
      simp only [Perlin.generate_perm, List.mem_map, List.mem_range]
      exact ⟨i, i.2, congrArg Fin.val hi⟩
  · exact List.Nodup.map hc (List.nodup_range size)
  · intro idx h
    have hidx : idx < size := by rwa [hlen] at h
    have : (Perlin.generate_perm target size).get ⟨idx, h⟩ =
        Perlin.permuteFn target size id idx := by
      simp [Perlin.generate_perm]
    rw [this]
    exact hd hsize idx hidx

/-- C8 witness: size 3, all draws 0 (a valid draw sequence): the theorem's
conclusions at a concrete input, via the theorem itself. -/
theorem generate_perm_bijection_derangement_witness :
    (Perlin.generate_perm (fun _ => 0) 3).length = 3
    ∧ (2 ∈ Perlin.generate_perm (fun _ => 0) 3 ↔ 2 < 3)
    ∧ (Perlin.generate_perm (fun _ => 0) 3).Nodup := by
  have h := generate_perm_bijection_derangement (fun _ => 0) 3 (by omega)
    (fun i hi => hi)
  exact ⟨h.1, h.2.1 2, h.2.2.1⟩

theorem F64.fdiv_zero_pos {x : ℚ} (h : 0 < x) : F64.fdiv x 0 = F64.pinf := by
  simp [F64.fdiv, h.ne', h]

theorem F64.fdiv_zero_neg {x : ℚ} (h : x < 0) : F64.fdiv x 0 = F64.ninf := by
  simp [F64.fdiv, h.ne, not_lt.mpr h.le]

theorem F64.fdiv_zero_zero : F64.fdiv 0 0 = F64.nan := by
  simp [F64.fdiv]

theorem F64.fmax3_pos0 (s x y : F64) :
    F64.fmax (F64.fmax (F64.fmax s F64.pinf) x) y = F64.pinf := by
  rw [F64.fmax_right_pinf, F64.fmax_left_pinf, F64.fmax_left_pinf]

theorem F64.fmax3_pos1 (s x y : F64) :
    F64.fmax (F64.fmax (F64.fmax s x) F64.pinf) y = F64.pinf := by
  rw [F64.fmax_right_pinf, F64.fmax_left_pinf]

theorem F64.fmax3_pos2 (s x y : F64) :
    F64.fmax (F64.fmax (F64.fmax s x) y) F64.pinf = F64.pinf := by
  rw [F64.fmax_right_pinf]

theorem F64.fmin3_pos0 (s x y : F64) :
    F64.fmin (F64.fmin (F64.fmin s F64.ninf) x) y = F64.ninf := by
  rw [F64.fmin_right_ninf, F64.fmin_left_ninf, F64.fmin_left_ninf]

theorem F64.fmin3_pos1 (s x y : F64) :
    F64.fmin (F64.fmin (F64.fmin s x) F64.ninf) y = F64.ninf := by
  rw [F64.fmin_right_ninf, F64.fmin_left_ninf]

theorem F64.fmin3_pos2 (s x y : F64) :
    F64.fmin (F64.fmin (F64.fmin s x) y) F64.ninf = F64.ninf := by
  rw [F64.fmin_right_ninf]

theorem F64.fmax3_drop0 (s : ℚ) (x y : F64) :
    F64.fmax (F64.fmax (F64.fmax (F64.fin s) F64.ninf) x) y =
      F64.fmax (F64.fmax (F64.fin s) x) y := by
  rw [F64.fmax_right_ninf (by simp)]

theorem F64.fmax3_drop1 (s : ℚ) (x y : F64) :
    F64.fmax (F64.fmax (F64.fmax (F64.fin s) x) F64.ninf) y =
      F64.fmax (F64.fmax (F64.fin s) x) y := by
  rw [F64.fmax_right_ninf (F64.fmax_ne_nan (by simp) x)]

theorem F64.fmax3_drop2 (s : ℚ) (x y : F64) :
    F64.fmax (F64.fmax (F64.fmax (F64.fin s) x) y) F64.ninf =
      F64.fmax (F64.fmax (F64.fin s) x) y := by
  rw [F64.fmax_right_ninf (F64.fmax_ne_nan (F64.fmax_ne_nan (by simp) x) y)]

theorem F64.fmin3_drop0 (s : ℚ) (x y : F64) :
    F64.fmin (F64.fmin (F64.fmin (F64.fin s) F64.pinf) x) y =
      F64.fmin (F64.fmin (F64.fin s) x) y := by
  rw [F64.fmin_right_pinf (by simp)]

theorem F64.fmin3_drop1 (s : ℚ) (x y : F64) :
    F64.fmin (F64.fmin (F64.fmin (F64.fin s) x) F64.pinf) y =
      F64.fmin (F64.fmin (F64.fin s) x) y := by
  rw [F64.fmin_right_pinf (F64.fmin_ne_nan (by simp) x)]

theorem F64.fmin3_drop2 (s : ℚ) (x y : F64) :
    F64.fmin (F64.fmin (F64.fmin (F64.fin s) x) y) F64.pinf =
      F64.fmin (F64.fmin (F64.fin s) x) y := by
  rw [F64.fmin_right_pinf (F64.fmin_ne_nan (F64.fmin_ne_nan (by simp) x) y)]

/-- C2: `AABB::hit` returns true iff the interval
`[max(range.start, max over axes of tlow), min(range.end, min over axes of thigh)]`
is non-empty with strict inequality, where per axis the plane parameters
`(lo - origin)/direction` and `(hi - origin)/direction` are sorted into
`(tlow, thigh)` in the IEEE domain; and, for a ray with a zero direction
component on some axis, it returns true iff the origin's coordinate on that
axis lies strictly inside the open slab `(lo, hi)` AND the overlapping
interval over the other two axes (still clamped by the range) is non-empty.
Hypotheses: the query range satisfies the documented precondition
`start < end`, and the box is valid (`lo < hi` per axis, the `AABB::new` /
`merge` invariant). -/
theorem aabb_hit_characterisation (a : AABB) (ray : Ray3) (r : TRange)
    (hr : r.start < r.stop)
    (hv : a.lo.x < a.hi.x ∧ a.lo.y < a.hi.y ∧ a.lo.z < a.hi.z) :
    (a.hit ray r =
      F64.flt
        (F64.fmax (F64.fmax (F64.fmax (F64.fin r.start)
            (F64.fmin (AABB.t a.lo ray 0) (AABB.t a.hi ray 0)))
            (F64.fmin (AABB.t a.lo ray 1) (AABB.t a.hi ray 1)))
            (F64.fmin (AABB.t a.lo ray 2) (AABB.t a.hi ray 2)))
        (F64.fmin (F64.fmin (F64.fmin (F64.fin r.stop)
            (F64.fmax (AABB.t a.lo ray 0) (AABB.t a.hi ray 0)))
            (F64.fmax (AABB.t a.lo ray 1) (AABB.t a.hi ray 1)))
            (F64.fmax (AABB.t a.lo ray 2) (AABB.t a.hi ray 2))))
    ∧ (∀ i : Fin 3, ray.direction.get i = 0 →
        (a.hit ray r = true ↔
          (a.lo.get i < ray.origin.get i ∧ ray.origin.get i < a.hi.get i
            ∧ a.hitDropAxis ray r i = true))) := by
  refine ⟨rfl, ?_⟩
  intro i hdir
  fin_cases i
  · simp only [Vec3.get] at hdir
    simp only [AABB.hit, AABB.hitDropAxis, AABB.t, Vec3.get, Point3.get]
    rw [hdir]
    by_cases h1 : a.lo.x < ray.origin.x
    · by_cases h2 : ray.origin.x < a.hi.x
      · rw [F64.fdiv_zero_neg (by linarith), F64.fdiv_zero_pos (by linarith)]
        rw [show F64.fmin F64.ninf F64.pinf = F64.ninf from rfl,
          show F64.fmax F64.ninf F64.pinf = F64.pinf from rfl,
          F64.fmax3_drop0, F64.fmin3_drop0]
        simp [h1, h2]
      · have hup : F64.fmax (F64.fdiv (a.lo.x - ray.origin.x) 0)
            (F64.fdiv (a.hi.x - ray.origin.x) 0) = F64.ninf := by
          rcases (not_lt.mp h2).lt_or_eq with hlt | heq
          · rw [F64.fdiv_zero_neg (by linarith), F64.fdiv_zero_neg (by linarith)]
            rfl
          · rw [show a.hi.x - ray.origin.x = 0 by linarith, F64.fdiv_zero_zero,
              F64.fdiv_zero_neg (by linarith)]
            rfl
        rw [hup, F64.fmin3_pos0, F64.flt_right_ninf]
        simp only [Bool.false_eq_true, false_iff]
        rintro ⟨-, hc2, -⟩
        exact h2 hc2
    · have hlow : F64.fmin (F64.fdiv (a.lo.x - ray.origin.x) 0)
          (F64.fdiv (a.hi.x - ray.origin.x) 0) = F64.pinf := by
        rcases (not_lt.mp h1).lt_or_eq with hlt | heq
        · rw [F64.fdiv_zero_pos (by linarith), F64.fdiv_zero_pos (by linarith [hv.1])]
          rfl
        · rw [show a.lo.x - ray.origin.x = 0 by linarith, F64.fdiv_zero_zero,
            F64.fdiv_zero_pos (by linarith [hv.1])]
          rfl
      rw [hlow, F64.fmax3_pos0, F64.flt_left_pinf]
      simp only [Bool.false_eq_true, false_iff]
      rintro ⟨hc1, -, -⟩
      exact h1 hc1
  · simp only [Vec3.get] at hdir
    simp only [AABB.hit, AABB.hitDropAxis, AABB.t, Vec3.get, Point3.get]
    rw [hdir]
    by_cases h1 : a.lo.y < ray.origin.y
    · by_cases h2 : ray.origin.y < a.hi.y
      · rw [F64.fdiv_zero_neg (by linarith), F64.fdiv_zero_pos (by linarith)]
        rw [show F64.fmin F64.ninf F64.pinf = F64.ninf from rfl,
          show F64.fmax F64.ninf F64.pinf = F64.pinf from rfl,
          F64.fmax3_drop1, F64.fmin3_drop1]
        simp [h1, h2]
      · have hup : F64.fmax (F64.fdiv (a.lo.y - ray.origin.y) 0)
            (F64.fdiv (a.hi.y - ray.origin.y) 0) = F64.ninf := by
          rcases (not_lt.mp h2).lt_or_eq with hlt | heq
          · rw [F64.fdiv_zero_neg (by linarith), F64.fdiv_zero_neg (by linarith)]
            rfl
          · rw [show a.hi.y - ray.origin.y = 0 by linarith, F64.fdiv_zero_zero,
              F64.fdiv_zero_neg (by linarith)]
            rfl
        rw [hup, F64.fmin3_pos1, F64.flt_right_ninf]
        simp only [Bool.false_eq_true, false_iff]
        rintro ⟨-, hc2, -⟩
        exact h2 hc2
    · have hlow : F64.fmin (F64.fdiv (a.lo.y - ray.origin.y) 0)
          (F64.fdiv (a.hi.y - ray.origin.y) 0) = F64.pinf := by
        rcases (not_lt.mp h1).lt_or_eq with hlt | heq
        · rw [F64.fdiv_zero_pos (by linarith), F64.fdiv_zero_pos (by linarith [hv.2.1])]
          rfl
        · rw [show a.lo.y - ray.origin.y = 0 by linarith, F64.fdiv_zero_zero,
            F64.fdiv_zero_pos (by linarith [hv.2.1])]
          rfl
      rw [hlow, F64.fmax3_pos1, F64.flt_left_pinf]
      simp only [Bool.false_eq_true, false_iff]
      rintro ⟨hc1, -, -⟩
      exact h1 hc1
  · simp only [Vec3.get] at hdir
    simp only [AABB.hit, AABB.hitDropAxis, AABB.t, Vec3.get, Point3.get]
    rw [hdir]
    by_cases h1 : a.lo.z < ray.origin.z
    · by_cases h2 : ray.origin.z < a.hi.z
      · rw [F64.fdiv_zero_neg (by linarith), F64.fdiv_zero_pos (by linarith)]
        rw [show F64.fmin F64.ninf F64.pinf = F64.ninf from rfl,
          show F64.fmax F64.ninf F64.pinf = F64.pinf from rfl,
          F64.fmax3_drop2, F64.fmin3_drop2]
        simp [h1, h2]
      · have hup : F64.fmax (F64.fdiv (a.lo.z - ray.origin.z) 0)
            (F64.fdiv (a.hi.z - ray.origin.z) 0) = F64.ninf := by
          rcases (not_lt.mp h2).lt_or_eq with hlt | heq
          · rw [F64.fdiv_zero_neg (by linarith), F64.fdiv_zero_neg (by linarith)]
            rfl
          · rw [show a.hi.z - ray.origin.z = 0 by linarith, F64.fdiv_zero_zero,
              F64.fdiv_zero_neg (by linarith)]
            rfl
        rw [hup, F64.fmin3_pos2, F64.flt_right_ninf]
        simp only [Bool.false_eq_true, false_iff]
        rintro ⟨-, hc2, -⟩
        exact h2 hc2
    · have hlow : F64.fmin (F64.fdiv (a.lo.z - ray.origin.z) 0)
          (F64.fdiv (a.hi.z - ray.origin.z) 0) = F64.pinf := by
        rcases (not_lt.mp h1).lt_or_eq with hlt | heq
        · rw [F64.fdiv_zero_pos (by linarith), F64.fdiv_zero_pos (by linarith [hv.2.2])]
          rfl
        · rw [show a.lo.z - ray.origin.z = 0 by linarith, F64.fdiv_zero_zero,
            F64.fdiv_zero_pos (by linarith [hv.2.2])]
          rfl
      rw [hlow, F64.fmax3_pos2, F64.flt_left_pinf]
      simp only [Bool.false_eq_true, false_iff]
      rintro ⟨hc1, -, -⟩
      exact h1 hc1

/-- C2 witness: the unit cube and a ray starting at its center with direction
`(1, 0, 0)` — zero direction component on axis 1 — over the range `[0, 2]`,
through the theorem at concrete inputs. -/
theorem aabb_hit_characterisation_witness :
    ((⟨⟨0, 0, 0⟩, ⟨1, 1, 1⟩⟩ : AABB).hit ⟨⟨1/2, 1/2, 1/2⟩, ⟨1, 0, 0⟩, 0⟩ ⟨0, 2⟩ = true ↔
      ((⟨⟨0, 0, 0⟩, ⟨1, 1, 1⟩⟩ : AABB).lo.get 1 <
          (⟨⟨1/2, 1/2, 1/2⟩, ⟨1, 0, 0⟩, 0⟩ : Ray3).origin.get 1
        ∧ (⟨⟨1/2, 1/2, 1/2⟩, ⟨1, 0, 0⟩, 0⟩ : Ray3).origin.get 1 <
            (⟨⟨0, 0, 0⟩, ⟨1, 1, 1⟩⟩ : AABB).hi.get 1
        ∧ (⟨⟨0, 0, 0⟩, ⟨1, 1, 1⟩⟩ : AABB).hitDropAxis
            ⟨⟨1/2, 1/2, 1/2⟩, ⟨1, 0, 0⟩, 0⟩ ⟨0, 2⟩ 1 = true)) :=
  (aabb_hit_characterisation ⟨⟨0, 0, 0⟩, ⟨1, 1, 1⟩⟩ ⟨⟨1/2, 1/2, 1/2⟩, ⟨1, 0, 0⟩, 0⟩
    ⟨0, 2⟩ (by norm_num) (by norm_num)).2 1 (by norm_num [Vec3.get])
